import Mathlib

set_option maxRecDepth 100000

/-!
Shallow embedding of the cryptobox suite (packages secretbox, strongbox,
box, stoutbox).  Byte strings are `List Nat`; Go nil slices and empty
slices are identified as `[]` except where the distinction is observable,
in which case dedicated `...Go` definitions keep slices as
`Option (List Nat)` (`none` = Go nil) and use an outer `Option` whose
`none` marks a Go run-time panic (index out of range).

The external collaborators (AES-CTR keystream, HMAC, SHA-2, the elliptic
curve and ECDSA) are abstract parameters, collected in `SymPrims` and
`ECSuite`, exactly as the spec declares them external with an interface
contract.  Every definition below is otherwise a direct transliteration
of the Go source.
-/

/-- Big-endian interpretation of a byte string, as `math/big.Int.SetBytes`. -/
def beToNat (l : List Nat) : Nat := l.foldl (fun a b => a * 256 + b) 0

/-- The four big-endian bytes of `n` as a `uint32` (Go conversion truncates
modulo 2^32), as written by `encoding/binary.Write` with `binary.BigEndian`. -/
def u32be (n : Nat) : List Nat :=
  [n / 16777216 % 256, n / 65536 % 256, n / 256 % 256, n % 256]

/-- Big-endian `uint32` read from four bytes, as `encoding/binary.Read`. -/
def be32 (a b c d : Nat) : Nat := ((a * 256 + b) * 256 + c) * 256 + d

/-- `zeroPad` from box/util.go and stoutbox/util.go: right-align `inp` in a
fresh slice of `outlen` bytes.  When the input is longer, Go sets
`inLen = outlen` and `copy` keeps the first `outlen` bytes. -/
def zeroPad (inp : List Nat) (outlen : Nat) : List Nat :=
  if outlen < inp.length then inp.take outlen
  else if inp.length = outlen then inp
  else List.replicate (outlen - inp.length) 0 ++ inp

/-- One length-prefixed frame as produced by `bw.Write`: the `uint32`
big-endian length followed by the data.  `binary.Write` into a
`bytes.Buffer` cannot fail, so the writer state never carries an error. -/
def frame (d : List Nat) : List Nat := u32be d.length ++ d

/-- Abstract symmetric collaborators: `ksByte key iv i` is byte `i` of the
AES-CTR keystream for the given key and counter block, `hmByte key msg i`
is byte `i` of the HMAC digest of `msg` under `key`. -/
structure SymPrims where
  ksByte : List Nat → List Nat → Nat → Nat
  hmByte : List Nat → List Nat → Nat → Nat

/-- The `tagSize`-byte HMAC digest (`computeTag` in secretbox/strongbox). -/
def hmacBytes (P : SymPrims) (tagSize : Nat) (key msg : List Nat) : List Nat :=
  (List.range tagSize).map (P.hmByte key msg)

/-- CTR-mode XOR: `cipher.NewCTR(...).XORKeyStream(out, msg)`. -/
def ctrXor (P : SymPrims) (key iv msg : List Nat) : List Nat :=
  List.zipWith (fun a b => a ^^^ b) msg ((List.range msg.length).map (P.ksByte key iv))

/-- `KeyIsSuitable` of secretbox/strongbox: `subtle.ConstantTimeEq` compares
the `int32` truncations, so the length is checked modulo 2^32. -/
def symKeyIsSuitable (keySize : Nat) (key : List Nat) : Bool :=
  key.length % 4294967296 = keySize

/-- `Seal` common to secretbox (`ck = 16`, `ts = 32`) and strongbox
(`ck = 32`, `ts = 48`): check the key size, lay the freshly drawn IV in
the first block, CTR-encrypt under `key[:ck]`, append the HMAC tag over
IV plus ciphertext under `key[ck:]`.  The IV (the outcome of
`generateNonce`) is passed explicitly; a failed random draw is a failed
call, which the round-trip statements never take. -/
def symSeal (P : SymPrims) (ck ts : Nat) (iv message key : List Nat) :
    Option (List Nat) :=
  if symKeyIsSuitable (ck + ts) key then
    some ((iv.take 16 ++ ctrXor P (key.take ck) (iv.take 16) message) ++
      hmacBytes P ts (key.drop ck)
        (iv.take 16 ++ ctrXor P (key.take ck) (iv.take 16) message))
  else none

/-- `Open` common to secretbox and strongbox: key size, the strict
`len(box) <= Overhead` truncation check, the tag comparison
(`subtle.ConstantTimeCompare` is equality of equal-length byte strings),
then CTR decryption of `box[:len(box)-ts]` with its leading IV.
secretbox's additional `box == nil` branch is subsumed by the length
check. -/
def symOpen (P : SymPrims) (ck ts : Nat) (bx key : List Nat) :
    Option (List Nat) :=
  if symKeyIsSuitable (ck + ts) key then
    if bx.length ≤ 16 + ts then none
    else
      if bx.drop (bx.length - ts) =
          hmacBytes P ts (key.drop ck) (bx.take (bx.length - ts)) then
        if (bx.take (bx.length - ts)).length < 16 then none
        else some (ctrXor P (key.take ck)
          ((bx.take (bx.length - ts)).take 16) ((bx.take (bx.length - ts)).drop 16))
      else none
  else none

namespace secretbox

def KeySize : Nat := 16 + 32

def Overhead : Nat := 16 + 32

def Seal (P : SymPrims) (iv message key : List Nat) : Option (List Nat) :=
  symSeal P 16 32 iv message key

def Open (P : SymPrims) (bx key : List Nat) : Option (List Nat) :=
  symOpen P 16 32 bx key

end secretbox

namespace strongbox

def KeySize : Nat := 32 + 48

def Overhead : Nat := 16 + 48

def Seal (P : SymPrims) (iv message key : List Nat) : Option (List Nat) :=
  symSeal P 32 48 iv message key

def Open (P : SymPrims) (bx key : List Nat) : Option (List Nat) :=
  symOpen P 32 48 bx key

end strongbox

/-- Abstract elliptic-curve and hash collaborators of one profile.
`unmarshal` is `elliptic.Unmarshal` (`none` when the bytes are not an
uncompressed on-curve point), `scalarMult p k` is `curve.ScalarMult`,
`base k` is the public point of scalar `k` as produced by
`elliptic.GenerateKey`, `marshal` is `elliptic.Marshal`, `xcoord p` is
`p.X.Bytes()` (minimal big-endian), `hByte msg i` is byte `i` of the
profile hash digest (SHA-256 resp. SHA-384), and `ecdsaVerify p h r s`
is `ecdsa.Verify`. -/
structure ECSuite (Pt : Type) where
  unmarshal : List Nat → Option Pt
  scalarMult : Pt → List Nat → Pt
  base : List Nat → Pt
  marshal : Pt → List Nat
  xcoord : Pt → List Nat
  hByte : List Nat → Nat → Nat
  sym : SymPrims
  ecdsaVerify : Pt → List Nat → Nat → Nat → Bool

/-- The `n`-byte digest `h.Sum(nil)` of the profile hash. -/
def hashBytes (hB : List Nat → Nat → Nat) (n : Nat) (msg : List Nat) : List Nat :=
  (List.range n).map (hB msg)

namespace box

def publicKeySize : Nat := 65
def privateKeySize : Nat := 32
def sigSize : Nat := 64
def ecdhSharedSize : Nat := 32

/-- `Overhead = publicKeySize + secretbox.Overhead`. -/
def Overhead : Nat := publicKeySize + secretbox.Overhead

/-- `KeyIsSuitable` of package box (nil identified with `[]`). -/
def KeyIsSuitable (key pub : List Nat) : Bool :=
  if key = [] ∧ pub = [] then false
  else if key ≠ [] ∧ key.length ≠ privateKeySize then false
  else if pub ≠ [] ∧ pub.length ≠ publicKeySize then false
  else true

/-- `ecdh` of package box: unmarshal the peer point, multiply by the
private scalar, left-pad the X-coordinate to `ecdhSharedSize` bytes,
then return `xb[:16] ++ SHA-256(xb[16:])`. -/
def ecdh {Pt : Type} (S : ECSuite Pt) (key peer : List Nat) : Option (List Nat) :=
  match S.unmarshal peer with
  | none => none
  | some p =>
    let xb := zeroPad (S.xcoord (S.scalarMult p key)) ecdhSharedSize
    some (xb.take 16 ++ hashBytes S.hByte 32 (xb.drop 16))

/-- `Seal` of package box.  The ephemeral scalar (the outcome of
`elliptic.GenerateKey` inside `Seal`) and the secretbox IV are passed
explicitly; the `GenerateKey` length checks are kept.  On success the box
is the marshalled ephemeral public key followed by the secretbox. -/
def Seal {Pt : Type} (S : ECSuite Pt) (ephPriv iv message peer : List Nat) :
    Option (List Nat) :=
  if KeyIsSuitable [] peer then
    if ephPriv.length = privateKeySize ∧
        (S.marshal (S.base ephPriv)).length = publicKeySize then
      match ecdh S ephPriv peer with
      | none => none
      | some skey =>
        match secretbox.Seal S.sym iv message skey with
        | none => none
        | some sbox => some (S.marshal (S.base ephPriv) ++ sbox)
    else none
  else none

/-- `Open` of package box. -/
def Open {Pt : Type} (S : ECSuite Pt) (bx key : List Nat) : Option (List Nat) :=
  if KeyIsSuitable key [] then
    if bx.length < publicKeySize + secretbox.Overhead then none
    else
      match ecdh S key (bx.take publicKeySize) with
      | none => none
      | some shared => secretbox.Open S.sym (bx.drop publicKeySize) shared
  else none

/-- `unmarshalECDSASignature`: `nil, nil` unless the signature is exactly
64 bytes, else `r = SetBytes(sig[:32])`, `s = SetBytes(sig[32:])`. -/
def unmarshalECDSASignature (sig : List Nat) : Option (Nat × Nat) :=
  if sig.length = sigSize then some (beToNat (sig.take 32), beToNat (sig.drop 32))
  else none

/-- `verify` of package box: reject unless the signed message is strictly
longer than 64 bytes, split off the trailing 64-byte signature, and check
it with ECDSA over SHA-256 of the message part (`ecdsa_public` fails when
the signer bytes do not decode to a point). -/
def verify {Pt : Type} (S : ECSuite Pt) (smessage peer : List Nat) : Bool :=
  if smessage.length ≤ sigSize then false
  else
    match S.unmarshal peer with
    | none => false
    | some p =>
      match unmarshalECDSASignature (smessage.drop (smessage.length - sigSize)) with
      | none => false
      | some rs =>
        S.ecdsaVerify p (hashBytes S.hByte 32 (smessage.take (smessage.length - sigSize)))
          rs.1 rs.2

/-- `OpenAndVerify` of package box, panic-aware: the result is
`some (message, ok)` for a normal return and `none` when
`smessage[:len(smessage)-sigSize]` is evaluated with a negative bound (the
Go slice expression panics).  Note that on signature failure the sliced
message is still assigned and returned next to `ok = false`. -/
def OpenAndVerify {Pt : Type} (S : ECSuite Pt) (bx key peer : List Nat) :
    Option (List Nat × Bool) :=
  match Open S bx key with
  | none => some ([], false)
  | some sm =>
    if sm.length < sigSize then none
    else some (sm.take (sm.length - sigSize), verify S sm peer)

end box

namespace stoutbox

def publicKeySize : Nat := 133
def privateKeySize : Nat := 66
def sigSize : Nat := 140

def BoxUnsigned : Nat := 1
def BoxSigned : Nat := 2
def BoxShared : Nat := 11
def BoxSharedSigned : Nat := 12
def peerList : Nat := 21

def SharedKeySize : Nat := 80

/-- `Overhead = publicKeySize + strongbox.Overhead + 9` (two four byte
lengths and the type byte). -/
def Overhead : Nat := publicKeySize + strongbox.Overhead + 9

/-- `KeyIsSuitable` of package stoutbox (nil identified with `[]`). -/
def KeyIsSuitable (key pub : List Nat) : Bool :=
  if key = [] ∧ pub = [] then false
  else if key ≠ [] ∧ key.length ≠ privateKeySize then false
  else if pub ≠ [] ∧ pub.length ≠ publicKeySize then false
  else true

/-- The frame reader state of stoutbox/util.go: the remaining buffer and
the sticky `binary.Read` error flag. -/
structure Br where
  buf : List Nat
  err : Bool

/-- `br.Next` of stoutbox/util.go: read a big-endian `uint32` length
(fewer than four remaining bytes is a sticky read error), return `nil`
without consuming data when the length exceeds the remaining bytes, else
consume and return exactly that many bytes. -/
def brNext (b : Br) : Option (List Nat) × Br :=
  if b.err then (none, b)
  else
    match b.buf with
    | a :: x :: c :: d :: rest =>
      let dlen := be32 a x c d
      if rest.length < dlen then (none, ⟨rest, false⟩)
      else (some (rest.take dlen), ⟨rest.drop dlen, false⟩)
    | _ => (none, ⟨[], true⟩)

/-- `br.NextU32` of stoutbox/util.go: read the four byte length field,
check it against the remaining bytes, then read the big-endian `uint32`
value. -/
def brNextU32 (b : Br) : Option Nat × Br :=
  if b.err then (none, b)
  else
    match b.buf with
    | a :: x :: c :: d :: rest =>
      if rest.length < be32 a x c d then (none, ⟨rest, false⟩)
      else
        match rest with
        | e :: f :: g :: h :: rest2 => (some (be32 e f g h), ⟨rest2, false⟩)
        | _ => (none, ⟨[], true⟩)
    | _ => (none, ⟨[], true⟩)

/-- `ecdh` of package stoutbox: unlike package box, the X-coordinate bytes
`x.Bytes()` are used without zero-padding before the split
`skey := xb[:32]; mkey := SHA-384(xb[32:])`.  When `x.Bytes()` is shorter
than 32 bytes the Go slice expression `xb[:32]` aborts; `none` stands for
that aborted call. -/
def ecdh {Pt : Type} (T : ECSuite Pt) (key peer : List Nat) : Option (List Nat) :=
  match T.unmarshal peer with
  | none => none
  | some p =>
    let xb := T.xcoord (T.scalarMult p key)
    if xb.length < 32 then none
    else some (xb.take 32 ++ hashBytes T.hByte 48 (xb.drop 32))

/-- `SharedKey` is `ecdh`. -/
def SharedKey {Pt : Type} (T : ECSuite Pt) (key peer : List Nat) : Option (List Nat) :=
  ecdh T key peer

/-- The spec's §4.2 step 3 in its own words (zero-pad the X-coordinate on
the left to curveByteLen = 66 before the split); kept separate from the
source's `ecdh` for comparison.  The spec flags the missing padding in the
source as open question Q1. -/
def ecdhSpecPadded {Pt : Type} (T : ECSuite Pt) (key peer : List Nat) :
    Option (List Nat) :=
  match T.unmarshal peer with
  | none => none
  | some p =>
    let xb := zeroPad (T.xcoord (T.scalarMult p key)) 66
    some (xb.take 32 ++ hashBytes T.hByte 48 (xb.drop 32))

/-- `sealBox`: reject nil messages and unsuitable peers, generate the
ephemeral keypair (scalar passed explicitly, with `GenerateKey`'s length
checks), derive the shared key, strongbox-seal, and pack
`[boxtype] ++ Frame(ephPub) ++ Frame(sbox)`. -/
def sealBox {Pt : Type} (T : ECSuite Pt) (ephPriv iv message peer : List Nat)
    (btype : Nat) : Option (List Nat) :=
  if message = [] then none
  else if ¬ KeyIsSuitable [] peer then none
  else if ¬ (ephPriv.length = privateKeySize ∧
      (T.marshal (T.base ephPriv)).length = publicKeySize) then none
  else
    match ecdh T ephPriv peer with
    | none => none
    | some skey =>
      match strongbox.Seal T.sym iv message skey with
      | none => none
      | some sbox =>
        some ([btype] ++ frame (T.marshal (T.base ephPriv)) ++ frame sbox)

/-- `Seal` of package stoutbox. -/
def Seal {Pt : Type} (T : ECSuite Pt) (ephPriv iv message peer : List Nat) :
    Option (List Nat) :=
  sealBox T ephPriv iv message peer BoxUnsigned

/-- The body of `openBox` after the type byte `btype = box[0]` has been
read: parse the two frames, derive the shared key and strongbox-open.  A
nil frame makes `ecdh` (via `elliptic.Unmarshal`) resp. `strongbox.Open`
(via its length check) fail, as in Go. -/
def openBoxTail {Pt : Type} (T : ECSuite Pt) (btype : Nat) (rest key : List Nat) :
    Option (Nat × List Nat) :=
  let r1 := brNext ⟨rest, false⟩
  let r2 := brNext r1.2
  match r1.1 with
  | none => none
  | some ephPub =>
    match ecdh T key ephPub with
    | none => none
    | some shared =>
      match r2.1 with
      | none => none
      | some sbox =>
        match strongbox.Open T.sym sbox shared with
        | none => none
        | some message => some (btype, message)

/-- `openBox` of package stoutbox; `some (btype, message)` is a return
with `ok = true` (the message is then never nil).  Nil is identified with
`[]`, so the Go panic on a non-nil empty box is not visible here; see
`openBoxGo`. -/
def openBox {Pt : Type} (T : ECSuite Pt) (bx key : List Nat) :
    Option (Nat × List Nat) :=
  match bx with
  | [] => none
  | b :: rest =>
    if ¬ KeyIsSuitable key [] then none
    else openBoxTail T b rest key

/-- `Open` of package stoutbox: open the box and insist on the
`BoxUnsigned` type byte. -/
def Open {Pt : Type} (T : ECSuite Pt) (bx key : List Nat) : Option (List Nat) :=
  match openBox T bx key with
  | none => none
  | some r => if r.1 = BoxUnsigned then some r.2 else none

/-- `unmarshalSignature` of stoutbox/util.go: two frames holding the
big-endian bytes of r and s. -/
def unmarshalSignature (sig : List Nat) : Option (Nat × Nat) :=
  let r1 := brNext ⟨sig, false⟩
  match r1.1 with
  | none => none
  | some rb =>
    match (brNext r1.2).1 with
    | none => none
    | some sb => some (beToNat rb, beToNat sb)

/-- `Verify` of package stoutbox. -/
def Verify {Pt : Type} (T : ECSuite Pt) (message signature signer : List Nat) :
    Bool :=
  if message = [] ∨ signature = [] then false
  else if ¬ KeyIsSuitable [] signer then false
  else
    match unmarshalSignature signature with
    | none => false
    | some rs =>
      match T.unmarshal signer with
      | none => false
      | some p => T.ecdsaVerify p (hashBytes T.hByte 48 message) rs.1 rs.2

/-- The signed-payload opening shared by `OpenAndVerify` and
`OpenSharedAndVerify`: unframe the message and the signature from the
recovered plaintext and check the signature against the stated signer. -/
def signedPayloadOpen {Pt : Type} (T : ECSuite Pt) (sm peer : List Nat) :
    Option (List Nat) :=
  let m1 := brNext ⟨sm, false⟩
  match m1.1 with
  | none => none
  | some message =>
    match (brNext m1.2).1 with
    | none => none
    | some sig => if Verify T message sig peer then some message else none

/-- `OpenAndVerify` of package stoutbox: open the box, insist on the
`BoxSigned` type byte, then unframe and verify. -/
def OpenAndVerify {Pt : Type} (T : ECSuite Pt) (bx key peer : List Nat) :
    Option (List Nat) :=
  match openBox T bx key with
  | none => none
  | some r =>
    if r.1 ≠ BoxSigned then none
    else signedPayloadOpen T r.2 peer

/-- `BoxIsSigned` (nil identified with `[]`; see `BoxIsSignedGo` for the
panic on a non-nil empty slice). -/
def BoxIsSigned (bx : List Nat) : Bool :=
  match bx with
  | [] => false
  | b :: _ => if b = BoxSigned then true else if b = BoxSharedSigned then true else false

/-- `boxForPeer`: wrap the payload key for one recipient under the
ephemeral ECDH key. -/
def boxForPeer {Pt : Type} (T : ECSuite Pt) (ePriv peer key iv : List Nat) :
    Option (List Nat) :=
  match ecdh T ePriv peer with
  | none => none
  | some shared => strongbox.Seal T.sym iv key shared

/-- The peer-list packing loop of `buildSharedBox`:
`Frame(pub_i) ++ Frame(wrap_i)` for each recipient, `none` as soon as a
wrap fails.  `wrapIv i` is the nonce drawn for the i-th wrap. -/
def packPeerEntries {Pt : Type} (T : ECSuite Pt) (ePriv key : List Nat)
    (wrapIv : Nat → List Nat) : List (List Nat) → Nat → Option (List Nat)
  | [], _ => some []
  | p :: ps, i =>
    match boxForPeer T ePriv p key (wrapIv i) with
    | none => none
    | some pbox =>
      match packPeerEntries T ePriv key wrapIv ps (i + 1) with
      | none => none
      | some restE => some (frame p ++ frame pbox ++ restE)

/-- `buildSharedBox`: validate the recipients, generate the ephemeral
keypair and the fresh 80-byte payload key (both passed explicitly), wrap
the payload key for every recipient, seal the message under the payload
key, and pack
`[btype] ++ Frame(ephPub) ++ Frame([peerList] ++ u32(N) ++ entries) ++ Frame(sbox)`. -/
def buildSharedBox {Pt : Type} (T : ECSuite Pt) (ephPriv K : List Nat)
    (wrapIv : Nat → List Nat) (payloadIv : List Nat)
    (message : List Nat) (peers : List (List Nat)) (btype : Nat) :
    Option (List Nat) :=
  if message = [] then none
  else if ¬ peers.all (fun p => KeyIsSuitable [] p) then none
  else if ¬ (ephPriv.length = privateKeySize ∧
      (T.marshal (T.base ephPriv)).length = publicKeySize) then none
  else
    match packPeerEntries T ephPriv K wrapIv peers 0 with
    | none => none
    | some entries =>
      let plist := peerList :: (u32be 4 ++ u32be peers.length ++ entries)
      match strongbox.Seal T.sym payloadIv message K with
      | none => none
      | some sbox =>
        some ([btype] ++ frame (T.marshal (T.base ephPriv)) ++ frame plist
          ++ frame sbox)

/-- `SealShared`. -/
def SealShared {Pt : Type} (T : ECSuite Pt) (ephPriv K : List Nat)
    (wrapIv : Nat → List Nat) (payloadIv : List Nat)
    (message : List Nat) (peers : List (List Nat)) : Option (List Nat) :=
  buildSharedBox T ephPriv K wrapIv payloadIv message peers BoxShared

/-- The recipient scan of `unpackSharedBox`: read up to `peerCount`
`(peer, wrap)` frame pairs; on the first peer equal to `public`, derive
the ephemeral shared key and open the wrap (and stop).  `none` covers
both a failed parse or open and the loop ending with `shared == nil`,
every one of which makes `unpackSharedBox` fail. -/
def scanPeers {Pt : Type} (T : ECSuite Pt) (key ePub pub : List Nat) :
    Nat → Br → Option (List Nat)
  | 0, _ => none
  | n + 1, b =>
    let r1 := brNext b
    match r1.1 with
    | none => none
    | some peer =>
      let r2 := brNext r1.2
      match r2.1 with
      | none => none
      | some w =>
        if peer = pub then
          match ecdh T key ePub with
          | none => none
          | some skey => strongbox.Open T.sym w skey
        else scanPeers T key ePub pub n r2.2

/-- The body of `unpackSharedBox` after the type byte: parse the
ephemeral public key, the peer list (whose first byte must be `peerList`;
on a non-nil empty list Go would abort at `packedPeers[0]`), the peer
count, scan for this recipient's wrap, then open the payload. -/
def unpackSharedBoxTail {Pt : Type} (T : ECSuite Pt) (btype : Nat)
    (rest key pub : List Nat) : Option (Nat × List Nat) :=
  let r1 := brNext ⟨rest, false⟩
  match r1.1 with
  | none => none
  | some ePub =>
    let r2 := brNext r1.2
    match r2.1 with
    | none => none
    | some plist =>
      match plist with
      | [] => none
      | pl0 :: plRest =>
        if pl0 ≠ peerList then none
        else
          let r3 := brNextU32 ⟨plRest, false⟩
          match r3.1 with
          | none => none
          | some peerCount =>
            match scanPeers T key ePub pub peerCount r3.2 with
            | none => none
            | some shared =>
              match (brNext r2.2).1 with
              | none => none
              | some sbox =>
                match strongbox.Open T.sym sbox shared with
                | none => none
                | some message => some (btype, message)

/-- `unpackSharedBox` (nil identified with `[]`; see
`unpackSharedBoxGo`). -/
def unpackSharedBox {Pt : Type} (T : ECSuite Pt) (bx key pub : List Nat) :
    Option (Nat × List Nat) :=
  match bx with
  | [] => none
  | b :: rest =>
    if ¬ KeyIsSuitable key pub then none
    else unpackSharedBoxTail T b rest key pub

/-- `OpenShared`: unpack and insist on the `BoxShared` type byte. -/
def OpenShared {Pt : Type} (T : ECSuite Pt) (bx key pub : List Nat) :
    Option (List Nat) :=
  match unpackSharedBox T bx key pub with
  | none => none
  | some r => if r.1 = BoxShared then some r.2 else none

/-- `OpenSharedAndVerify`: unpack, insist on `BoxSharedSigned`, then
unframe and verify as in `OpenAndVerify`. -/
def OpenSharedAndVerify {Pt : Type} (T : ECSuite Pt) (bx key pub signer : List Nat) :
    Option (List Nat) :=
  match unpackSharedBox T bx key pub with
  | none => none
  | some r =>
    if r.1 ≠ BoxSharedSigned then none
    else signedPayloadOpen T r.2 signer

end stoutbox

namespace box

/-- `br.Next` of box/util.go.  Unlike the stoutbox reader there is no
check of the length against the remaining bytes: `data := make([]byte, dlen)`
is filled by `b.buf.Read(data)` with whatever is available (its error is
discarded), so the returned slice is the remaining bytes zero-filled up
to the requested length. -/
def brNext (b : stoutbox.Br) : Option (List Nat) × stoutbox.Br :=
  if b.err then (none, b)
  else
    match b.buf with
    | a :: x :: c :: d :: rest =>
      let dlen := be32 a x c d
      (some (rest.take dlen ++ List.replicate (dlen - rest.length) 0),
        ⟨rest.drop dlen, false⟩)
    | _ => (none, ⟨[], true⟩)

end box

namespace stoutbox

/-- A Go byte slice with its nil-ness kept: `none` is a nil slice. -/
abbrev GoSlice := Option (List Nat)

/-- `KeyIsSuitable` with Go nil slices kept distinct from empty ones. -/
def KeyIsSuitableGo : GoSlice → GoSlice → Bool
  | none, none => false
  | none, some pb => pb.length = publicKeySize
  | some kb, none => kb.length = privateKeySize
  | some kb, some pb => kb.length = privateKeySize && pb.length = publicKeySize

/-- `openBox` with Go nil slices kept and the `box[0]` read made explicit:
the outer `none` is the Go run-time panic (index out of range) raised when
the box is a non-nil empty slice, which is indexed after only the nil
check. -/
def openBoxGo {Pt : Type} (T : ECSuite Pt) (bx key : GoSlice) :
    Option (Option (Nat × List Nat)) :=
  match bx with
  | none => some none
  | some bs =>
    if ¬ KeyIsSuitableGo key none then some none
    else
      match bs with
      | [] => none
      | b :: rest => some (openBoxTail T b rest (key.getD []))

/-- `Open` over `openBoxGo`; the outer `none` is a propagated panic. -/
def OpenGo {Pt : Type} (T : ECSuite Pt) (bx key : GoSlice) :
    Option (Option (List Nat)) :=
  match openBoxGo T bx key with
  | none => none
  | some none => some none
  | some (some r) => some (if r.1 = BoxUnsigned then some r.2 else none)

/-- `OpenAndVerify` over `openBoxGo`; the outer `none` is a propagated
panic. -/
def OpenAndVerifyGo {Pt : Type} (T : ECSuite Pt) (bx key : GoSlice)
    (peer : List Nat) : Option (Option (List Nat)) :=
  match openBoxGo T bx key with
  | none => none
  | some none => some none
  | some (some r) =>
    some (if r.1 ≠ BoxSigned then none else signedPayloadOpen T r.2 peer)

/-- `unpackSharedBox` with Go nil slices kept and the `box[0]` read made
explicit, as `openBoxGo`. -/
def unpackSharedBoxGo {Pt : Type} (T : ECSuite Pt) (bx key pub : GoSlice) :
    Option (Option (Nat × List Nat)) :=
  match bx with
  | none => some none
  | some bs =>
    if ¬ KeyIsSuitableGo key pub then some none
    else
      match bs with
      | [] => none
      | b :: rest => some (unpackSharedBoxTail T b rest (key.getD []) (pub.getD []))

/-- `OpenShared` over `unpackSharedBoxGo`. -/
def OpenSharedGo {Pt : Type} (T : ECSuite Pt) (bx key pub : GoSlice) :
    Option (Option (List Nat)) :=
  match unpackSharedBoxGo T bx key pub with
  | none => none
  | some none => some none
  | some (some r) => some (if r.1 = BoxShared then some r.2 else none)

/-- `OpenSharedAndVerify` over `unpackSharedBoxGo`. -/
def OpenSharedAndVerifyGo {Pt : Type} (T : ECSuite Pt) (bx key pub : GoSlice)
    (signer : List Nat) : Option (Option (List Nat)) :=
  match unpackSharedBoxGo T bx key pub with
  | none => none
  | some none => some none
  | some (some r) =>
    some (if r.1 ≠ BoxSharedSigned then none else signedPayloadOpen T r.2 signer)

/-- `BoxIsSigned` with the nil-ness of the box kept: on a nil box it
returns false, on a non-nil empty box `box[0]` panics (`none`). -/
def BoxIsSignedGo : GoSlice → Option Bool
  | none => some false
  | some [] => none
  | some (b :: _) =>
    some (if b = BoxSigned then true else if b = BoxSharedSigned then true else false)

/-- `ecdh` with the Go run-time panic kept apart from the failure return:
`some none` is the `nil, false` return when `elliptic.Unmarshal` rejects
the peer bytes, and the outer `none` is the abort of the slice expression
`xb[:32]` when `x.Bytes()` is shorter than 32 bytes (for example the
point at infinity produced by an all-zero scalar, whose `Bytes()` is
empty). -/
def ecdhP {Pt : Type} (T : ECSuite Pt) (key peer : List Nat) :
    Option (Option (List Nat)) :=
  match T.unmarshal peer with
  | none => some none
  | some p =>
    if (T.xcoord (T.scalarMult p key)).length < 32 then none
    else some (some ((T.xcoord (T.scalarMult p key)).take 32 ++
      hashBytes T.hByte 48 ((T.xcoord (T.scalarMult p key)).drop 32)))

/-- The body of `openBox` after the type byte, with the `ecdh` panic kept:
both frames are read first (as in Go), then `ecdh` runs before any type
check; its panic propagates as the outer `none`, every ordinary failure
is the `some none` return. -/
def openBoxTailP {Pt : Type} (T : ECSuite Pt) (btype : Nat) (rest key : List Nat) :
    Option (Option (Nat × List Nat)) :=
  let r1 := brNext ⟨rest, false⟩
  let r2 := brNext r1.2
  match r1.1 with
  | none => some none
  | some ephPub =>
    match ecdhP T key ephPub with
    | none => none
    | some none => some none
    | some (some shared) =>
      match r2.1 with
      | none => some none
      | some sbox =>
        match strongbox.Open T.sym sbox shared with
        | none => some none
        | some message => some (some (btype, message))

/-- `openBox` with the `ecdh` panic kept (nil identified with `[]` as in
`openBox`; the non-nil empty-box panic is `openBoxGo`). -/
def openBoxP {Pt : Type} (T : ECSuite Pt) (bx key : List Nat) :
    Option (Option (Nat × List Nat)) :=
  match bx with
  | [] => some none
  | b :: rest =>
    if ¬ KeyIsSuitable key [] then some none
    else openBoxTailP T b rest key

/-- `Open` over `openBoxP`; the outer `none` is a propagated panic. -/
def OpenP {Pt : Type} (T : ECSuite Pt) (bx key : List Nat) :
    Option (Option (List Nat)) :=
  match openBoxP T bx key with
  | none => none
  | some none => some none
  | some (some r) => some (if r.1 = BoxUnsigned then some r.2 else none)

/-- `OpenAndVerify` over `openBoxP`; the outer `none` is a propagated
panic. -/
def OpenAndVerifyP {Pt : Type} (T : ECSuite Pt) (bx key peer : List Nat) :
    Option (Option (List Nat)) :=
  match openBoxP T bx key with
  | none => none
  | some none => some none
  | some (some r) =>
    some (if r.1 ≠ BoxSigned then none else signedPayloadOpen T r.2 peer)

end stoutbox

section Lemmas

theorem hmacBytes_length (P : SymPrims) (ts : Nat) (key msg : List Nat) :
    (hmacBytes P ts key msg).length = ts := by
  simp [hmacBytes]

theorem ctrXor_length (P : SymPrims) (key iv msg : List Nat) :
    (ctrXor P key iv msg).length = msg.length := by
  simp [ctrXor]

theorem hashBytes_length (hB : List Nat → Nat → Nat) (n : Nat) (msg : List Nat) :
    (hashBytes hB n msg).length = n := by
  simp [hashBytes]

theorem zeroPad_length (inp : List Nat) (outlen : Nat) :
    (zeroPad inp outlen).length = outlen := by
  unfold zeroPad
  split
  · simpa using Nat.le_of_lt (by assumption)
  · split
    · assumption
    · simp; omega

theorem zipWith_xor_cancel (m s : List Nat) (h : s.length = m.length) :
    List.zipWith (fun a b => a ^^^ b)
      (List.zipWith (fun a b => a ^^^ b) m s) s = m := by
  induction m generalizing s with
  | nil => simp
  | cons a as ih =>
    cases s with
    | nil => simp at h
    | cons b bs =>
      simp only [List.zipWith_cons_cons, List.cons.injEq]
      exact ⟨Nat.xor_cancel_right b a, ih bs (by simpa using h)⟩

theorem ctrXor_ctrXor (P : SymPrims) (key iv m : List Nat) :
    ctrXor P key iv (ctrXor P key iv m) = m := by
  unfold ctrXor
  simp only [List.length_zipWith, List.length_map, List.length_range, Nat.min_self]
  exact zipWith_xor_cancel m _ (by simp)

theorem be32_u32be (n : Nat) (h : n < 4294967296) :
    be32 (n / 16777216 % 256) (n / 65536 % 256) (n / 256 % 256) (n % 256) = n := by
  unfold be32
  omega

theorem u32be_cons (n : Nat) (l : List Nat) :
    u32be n ++ l =
      n / 16777216 % 256 :: n / 65536 % 256 :: n / 256 % 256 :: n % 256 :: l := by
  simp [u32be]

/-- Reading one frame written by `bw.Write` leaves exactly the rest. -/
theorem brNext_frame (d rest : List Nat) (h : d.length < 4294967296) :
    stoutbox.brNext ⟨frame d ++ rest, false⟩ = (some d, ⟨rest, false⟩) := by
  unfold frame stoutbox.brNext
  rw [List.append_assoc, u32be_cons]
  simp only [Bool.false_eq_true, if_false]
  rw [be32_u32be d.length h]
  have hlen : ¬ (d ++ rest).length < d.length := by simp
  rw [if_neg hlen, List.take_left, List.drop_left]

/-- Reading one `WriteUint32` pair yields the value and leaves the rest
(provided at least four bytes follow, as they always do in a shared box). -/
theorem brNextU32_frame (n : Nat) (rest : List Nat) (hn : n < 4294967296) :
    stoutbox.brNextU32 ⟨u32be 4 ++ (u32be n ++ rest), false⟩ = (some n, ⟨rest, false⟩) := by
  unfold stoutbox.brNextU32
  rw [u32be_cons]
  simp only [Bool.false_eq_true, if_false]
  have h4 : be32 (4 / 16777216 % 256) (4 / 65536 % 256) (4 / 256 % 256) (4 % 256) = 4 :=
    be32_u32be 4 (by omega)
  rw [h4]
  have hlen : ¬ (u32be n ++ rest).length < 4 := by simp [u32be]
  rw [if_neg hlen, u32be_cons]
  dsimp only
  rw [be32_u32be n hn]

/-- Opening a box of the exact sealed shape recovers the CTR stream of
its ciphertext part. -/
theorem symOpen_append (P : SymPrims) (ck ts : Nat) (key iv x : List Nat)
    (hk : symKeyIsSuitable (ck + ts) key = true)
    (hiv : iv.length = 16) (hx : x ≠ []) :
    symOpen P ck ts ((iv ++ x) ++ hmacBytes P ts (key.drop ck) (iv ++ x)) key =
      some (ctrXor P (key.take ck) iv x) := by
  have hxlen : 0 < x.length := List.length_pos.mpr hx
  unfold symOpen
  rw [if_pos hk]
  have h1 : ((iv ++ x) ++ hmacBytes P ts (key.drop ck) (iv ++ x)).length =
      16 + x.length + ts := by
    simp only [List.length_append, hiv, hmacBytes_length]
  rw [h1]
  have hshort : ¬ 16 + x.length + ts ≤ 16 + ts := by omega
  rw [if_neg hshort]
  have h2 : 16 + x.length + ts - ts = (iv ++ x).length := by
    simp only [List.length_append, hiv]; omega
  rw [h2, List.take_left, List.drop_left, if_pos rfl]
  have h3 : ¬ (iv ++ x).length < 16 := by simp [hiv]
  rw [if_neg h3, ← hiv, List.take_left, List.drop_left]

/-- The symmetric round trip, common core of secretbox and strongbox:
with a key of the right size, a 16-byte IV and a non-empty message,
opening the sealed box returns the message. -/
theorem symOpen_symSeal (P : SymPrims) (ck ts : Nat) (iv m key : List Nat)
    (hk : symKeyIsSuitable (ck + ts) key = true)
    (hiv : iv.length = 16) (hm : m ≠ []) :
    symOpen P ck ts ((symSeal P ck ts iv m key).getD []) key = some m := by
  have hiv16 : iv.take 16 = iv := by rw [← hiv]; exact List.take_length iv
  have hxne : ctrXor P (key.take ck) iv m ≠ [] := by
    intro hc
    apply hm
    have hl := ctrXor_length P (key.take ck) iv m
    rw [hc] at hl
    exact List.length_eq_zero.mp hl.symm
  unfold symSeal
  rw [if_pos hk, hiv16, Option.getD_some,
    symOpen_append P ck ts key iv (ctrXor P (key.take ck) iv m) hk hiv hxne,
    ctrXor_ctrXor]

end Lemmas

section BoxLemmas

theorem box_KeyIsSuitable_pub (pub : List Nat) (h : pub.length = box.publicKeySize) :
    box.KeyIsSuitable [] pub = true := by
  have hne : pub ≠ [] := by
    intro hc; rw [hc] at h; simp [box.publicKeySize] at h
  simp [box.KeyIsSuitable, hne, h]

theorem box_KeyIsSuitable_priv (key : List Nat) (h : key.length = box.privateKeySize) :
    box.KeyIsSuitable key [] = true := by
  have hne : key ≠ [] := by
    intro hc; rw [hc] at h; simp [box.privateKeySize] at h
  simp [box.KeyIsSuitable, hne, h]

theorem box_ecdh_marshal {Pt : Type} (S : ECSuite Pt) (k : List Nat) (q : Pt)
    (peer : List Nat) (h : S.unmarshal peer = some q) :
    box.ecdh S k peer =
      some ((zeroPad (S.xcoord (S.scalarMult q k)) box.ecdhSharedSize).take 16 ++
        hashBytes S.hByte 32
          ((zeroPad (S.xcoord (S.scalarMult q k)) box.ecdhSharedSize).drop 16)) := by
  unfold box.ecdh
  rw [h]

theorem box_ecdh_key_suitable {Pt : Type} (S : ECSuite Pt) (q : Pt) (k : List Nat) :
    symKeyIsSuitable (16 + 32)
      ((zeroPad (S.xcoord (S.scalarMult q k)) box.ecdhSharedSize).take 16 ++
        hashBytes S.hByte 32
          ((zeroPad (S.xcoord (S.scalarMult q k)) box.ecdhSharedSize).drop 16)) = true := by
  unfold symKeyIsSuitable
  simp [List.length_take, zeroPad_length, hashBytes_length, box.ecdhSharedSize]

/-- The 20-year public-key round trip: for a keypair produced by
`GenerateKey` and any non-empty message, opening the sealed box with the
matching private key returns the message.  The hypotheses are exactly the
guarantees of the external collaborators: `GenerateKey` length checks,
`Unmarshal` inverting `Marshal` on the two public keys, and commutativity
of the two scalar multiplications of the ECDH agreement. -/
theorem box_open_seal {Pt : Type} (S : ECSuite Pt) (privB ephPriv iv m : List Nat)
    (h1 : privB.length = box.privateKeySize)
    (h2 : ephPriv.length = box.privateKeySize)
    (h3 : (S.marshal (S.base privB)).length = box.publicKeySize)
    (h4 : (S.marshal (S.base ephPriv)).length = box.publicKeySize)
    (h5 : S.unmarshal (S.marshal (S.base privB)) = some (S.base privB))
    (h6 : S.unmarshal (S.marshal (S.base ephPriv)) = some (S.base ephPriv))
    (h7 : S.scalarMult (S.base privB) ephPriv = S.scalarMult (S.base ephPriv) privB)
    (hiv : iv.length = 16) (hm : m ≠ []) :
    box.Open S ((box.Seal S ephPriv iv m (S.marshal (S.base privB))).getD []) privB =
      some m := by
  have hiv16 : iv.take 16 = iv := by rw [← hiv]; exact List.take_length iv
  have hkp := box_ecdh_key_suitable S (S.base privB) ephPriv
  have hseal : box.Seal S ephPriv iv m (S.marshal (S.base privB)) =
      some (S.marshal (S.base ephPriv) ++
        ((iv ++ ctrXor S.sym (((zeroPad (S.xcoord (S.scalarMult (S.base privB) ephPriv))
            box.ecdhSharedSize).take 16 ++
          hashBytes S.hByte 32 ((zeroPad (S.xcoord (S.scalarMult (S.base privB) ephPriv))
            box.ecdhSharedSize).drop 16)).take 16) iv m) ++
          hmacBytes S.sym 32 (((zeroPad (S.xcoord (S.scalarMult (S.base privB) ephPriv))
            box.ecdhSharedSize).take 16 ++
          hashBytes S.hByte 32 ((zeroPad (S.xcoord (S.scalarMult (S.base privB) ephPriv))
            box.ecdhSharedSize).drop 16)).drop 16)
            (iv ++ ctrXor S.sym (((zeroPad (S.xcoord (S.scalarMult (S.base privB) ephPriv))
            box.ecdhSharedSize).take 16 ++
          hashBytes S.hByte 32 ((zeroPad (S.xcoord (S.scalarMult (S.base privB) ephPriv))
            box.ecdhSharedSize).drop 16)).take 16) iv m))) := by
    unfold box.Seal
    rw [if_pos (box_KeyIsSuitable_pub _ h3), if_pos ⟨h2, h4⟩,
      box_ecdh_marshal S ephPriv (S.base privB) _ h5]
    dsimp only
    unfold secretbox.Seal symSeal
    rw [if_pos hkp]
    dsimp only
    rw [hiv16]
  rw [hseal, Option.getD_some]
  unfold box.Open
  rw [if_pos (box_KeyIsSuitable_priv _ h1)]
  split
  · rename_i hcon
    exfalso
    simp only [List.length_append, h4, hiv, ctrXor_length, hmacBytes_length,
      box.publicKeySize, secretbox.Overhead] at hcon
    omega
  · generalize hK : (zeroPad (S.xcoord (S.scalarMult (S.base privB) ephPriv))
        box.ecdhSharedSize).take 16 ++
      hashBytes S.hByte 32 ((zeroPad (S.xcoord (S.scalarMult (S.base privB) ephPriv))
        box.ecdhSharedSize).drop 16) = K at hkp ⊢
    rw [List.take_left' h4, List.drop_left' h4,
      box_ecdh_marshal S privB (S.base ephPriv) _ h6, ← h7, hK]
    dsimp only
    unfold secretbox.Open
    have hxne : ctrXor S.sym (K.take 16) iv m ≠ [] := by
      intro hc
      apply hm
      have hl := ctrXor_length S.sym (K.take 16) iv m
      rw [hc] at hl
      exact List.length_eq_zero.mp hl.symm
    rw [symOpen_append S.sym 16 32 K iv (ctrXor S.sym (K.take 16) iv m) hkp hiv hxne,
      ctrXor_ctrXor]

end BoxLemmas

section StoutLemmas

theorem stout_KeyIsSuitable_pub (pub : List Nat)
    (h : pub.length = stoutbox.publicKeySize) :
    stoutbox.KeyIsSuitable [] pub = true := by
  have hne : pub ≠ [] := by
    intro hc; rw [hc] at h; simp [stoutbox.publicKeySize] at h
  simp [stoutbox.KeyIsSuitable, hne, h]

theorem stout_KeyIsSuitable_priv (key : List Nat)
    (h : key.length = stoutbox.privateKeySize) :
    stoutbox.KeyIsSuitable key [] = true := by
  have hne : key ≠ [] := by
    intro hc; rw [hc] at h; simp [stoutbox.privateKeySize] at h
  simp [stoutbox.KeyIsSuitable, hne, h]

theorem stout_KeyIsSuitable_both (key pub : List Nat)
    (hk : key.length = stoutbox.privateKeySize)
    (hp : pub.length = stoutbox.publicKeySize) :
    stoutbox.KeyIsSuitable key pub = true := by
  have hkne : key ≠ [] := by
    intro hc; rw [hc] at hk; simp [stoutbox.privateKeySize] at hk
  have hpne : pub ≠ [] := by
    intro hc; rw [hc] at hp; simp [stoutbox.publicKeySize] at hp
  simp [stoutbox.KeyIsSuitable, hkne, hpne, hk, hp]

theorem stout_ecdh_marshal {Pt : Type} (T : ECSuite Pt) (k : List Nat) (q : Pt)
    (peer : List Nat) (h : T.unmarshal peer = some q)
    (hx : ¬ (T.xcoord (T.scalarMult q k)).length < 32) :
    stoutbox.ecdh T k peer =
      some ((T.xcoord (T.scalarMult q k)).take 32 ++
        hashBytes T.hByte 48 ((T.xcoord (T.scalarMult q k)).drop 32)) := by
  unfold stoutbox.ecdh
  rw [h]
  dsimp only
  rw [if_neg hx]

theorem stout_ecdh_key_suitable {Pt : Type} (T : ECSuite Pt) (q : Pt) (k : List Nat)
    (hx : ¬ (T.xcoord (T.scalarMult q k)).length < 32) :
    symKeyIsSuitable (32 + 48)
      ((T.xcoord (T.scalarMult q k)).take 32 ++
        hashBytes T.hByte 48 ((T.xcoord (T.scalarMult q k)).drop 32)) = true := by
  unfold symKeyIsSuitable
  have : (List.take 32 (T.xcoord (T.scalarMult q k))).length = 32 := by
    rw [List.length_take]
    omega
  simp [this, hashBytes_length]

/-- Parsing the two frames of a single-recipient stoutbox. -/
theorem openBoxTail_frames {Pt : Type} (T : ECSuite Pt) (btype : Nat)
    (key ephPub sb : List Nat)
    (h1 : ephPub.length < 4294967296) (h2 : sb.length < 4294967296) :
    stoutbox.openBoxTail T btype (frame ephPub ++ frame sb) key =
      match stoutbox.ecdh T key ephPub with
      | none => none
      | some shared =>
        match strongbox.Open T.sym sb shared with
        | none => none
        | some message => some (btype, message) := by
  have hb2 : stoutbox.brNext ⟨frame sb, false⟩ = (some sb, ⟨[], false⟩) := by
    have := brNext_frame sb [] h2
    rwa [List.append_nil] at this
  unfold stoutbox.openBoxTail
  rw [brNext_frame ephPub (frame sb) h1]
  dsimp only
  rw [hb2]

/-- The 50-year public-key round trip, under the same collaborator
guarantees as `box_open_seal` plus the requirement that the shared
point's X-coordinate has at least 32 bytes (otherwise the source's
`xb[:32]` aborts) and that the strongbox fits in a `uint32` frame. -/
theorem stout_open_seal {Pt : Type} (T : ECSuite Pt) (privB ephPriv iv m : List Nat)
    (h1 : privB.length = stoutbox.privateKeySize)
    (h2 : ephPriv.length = stoutbox.privateKeySize)
    (h3 : (T.marshal (T.base privB)).length = stoutbox.publicKeySize)
    (h4 : (T.marshal (T.base ephPriv)).length = stoutbox.publicKeySize)
    (h5 : T.unmarshal (T.marshal (T.base privB)) = some (T.base privB))
    (h6 : T.unmarshal (T.marshal (T.base ephPriv)) = some (T.base ephPriv))
    (h7 : T.scalarMult (T.base privB) ephPriv = T.scalarMult (T.base ephPriv) privB)
    (hx : ¬ (T.xcoord (T.scalarMult (T.base privB) ephPriv)).length < 32)
    (hiv : iv.length = 16) (hm : m ≠ [])
    (hm32 : m.length + 64 < 4294967296) :
    stoutbox.Open T ((stoutbox.Seal T ephPriv iv m (T.marshal (T.base privB))).getD [])
      privB = some m := by
  have hiv16 : iv.take 16 = iv := by rw [← hiv]; exact List.take_length iv
  have hkp := stout_ecdh_key_suitable T (T.base privB) ephPriv hx
  have hseal : stoutbox.Seal T ephPriv iv m (T.marshal (T.base privB)) =
      some (stoutbox.BoxUnsigned ::
        (frame (T.marshal (T.base ephPriv)) ++
         frame ((iv ++ ctrXor T.sym
            (((T.xcoord (T.scalarMult (T.base privB) ephPriv)).take 32 ++
              hashBytes T.hByte 48
                ((T.xcoord (T.scalarMult (T.base privB) ephPriv)).drop 32)).take 32)
            iv m) ++
          hmacBytes T.sym 48
            (((T.xcoord (T.scalarMult (T.base privB) ephPriv)).take 32 ++
              hashBytes T.hByte 48
                ((T.xcoord (T.scalarMult (T.base privB) ephPriv)).drop 32)).drop 32)
            (iv ++ ctrXor T.sym
              (((T.xcoord (T.scalarMult (T.base privB) ephPriv)).take 32 ++
                hashBytes T.hByte 48
                  ((T.xcoord (T.scalarMult (T.base privB) ephPriv)).drop 32)).take 32)
              iv m)))) := by
    unfold stoutbox.Seal stoutbox.sealBox
    rw [if_neg (fun hc => hm hc)]
    rw [if_neg (by rw [stout_KeyIsSuitable_pub _ h3]; exact fun hc => hc rfl)]
    rw [if_neg (fun hc => hc ⟨h2, h4⟩)]
    rw [stout_ecdh_marshal T ephPriv (T.base privB) _ h5 hx]
    dsimp only
    unfold strongbox.Seal symSeal
    rw [if_pos hkp]
    dsimp only
    rw [hiv16]
    rfl
  rw [hseal, Option.getD_some]
  unfold stoutbox.Open stoutbox.openBox
  dsimp only
  rw [if_neg (by rw [stout_KeyIsSuitable_priv _ h1]; exact fun hc => hc rfl)]
  generalize hK : (T.xcoord (T.scalarMult (T.base privB) ephPriv)).take 32 ++
      hashBytes T.hByte 48
        ((T.xcoord (T.scalarMult (T.base privB) ephPriv)).drop 32) = K at hkp ⊢
  have hsblen : ((iv ++ ctrXor T.sym (K.take 32) iv m) ++
      hmacBytes T.sym 48 (K.drop 32) (iv ++ ctrXor T.sym (K.take 32) iv m)).length =
      m.length + 64 := by
    simp only [List.length_append, hiv, ctrXor_length, hmacBytes_length]
    omega
  rw [openBoxTail_frames T stoutbox.BoxUnsigned privB (T.marshal (T.base ephPriv)) _
    (by rw [h4]; simp [stoutbox.publicKeySize]) (by rw [hsblen]; exact hm32)]
  rw [stout_ecdh_marshal T privB (T.base ephPriv) _ h6 (by rw [← h7]; exact hx), ← h7,
    hK]
  dsimp only
  unfold strongbox.Open
  have hxne : ctrXor T.sym (K.take 32) iv m ≠ [] := by
    intro hc
    apply hm
    have hl := ctrXor_length T.sym (K.take 32) iv m
    rw [hc] at hl
    exact List.length_eq_zero.mp hl.symm
  rw [symOpen_append T.sym 32 48 K iv (ctrXor T.sym (K.take 32) iv m) hkp hiv hxne,
    ctrXor_ctrXor]
  dsimp only
  rw [if_pos rfl]

end StoutLemmas

section SharedLemmas

theorem symSeal_length (P : SymPrims) (ck ts : Nat) (iv m key sb : List Nat)
    (h : symSeal P ck ts iv m key = some sb) (hiv : iv.length = 16) :
    sb.length = 16 + m.length + ts := by
  unfold symSeal at h
  split at h
  · cases h
    simp only [List.length_append, List.length_take, hiv, ctrXor_length,
      hmacBytes_length]
    omega
  · exact absurd h (by simp)

theorem symSeal_some_suitable (P : SymPrims) (ck ts : Nat) (iv m key sb : List Nat)
    (h : symSeal P ck ts iv m key = some sb) :
    symKeyIsSuitable (ck + ts) key = true := by
  unfold symSeal at h
  split at h
  · assumption
  · exact absurd h (by simp)

theorem boxForPeer_length {Pt : Type} (T : ECSuite Pt) (ePriv peer key iv pb : List Nat)
    (h : stoutbox.boxForPeer T ePriv peer key iv = some pb) (hiv : iv.length = 16) :
    pb.length = 16 + key.length + 48 := by
  unfold stoutbox.boxForPeer at h
  split at h
  · exact absurd h (by simp)
  · exact symSeal_length T.sym 32 48 iv key _ pb h hiv

/-- The wrap for a recipient whose point unmarshals and whose shared X is
long enough is a strongbox of the payload key under the derived key. -/
theorem boxForPeer_eq {Pt : Type} (T : ECSuite Pt) (ePriv peer key iv : List Nat)
    (q : Pt) (hq : T.unmarshal peer = some q)
    (hx : ¬ (T.xcoord (T.scalarMult q ePriv)).length < 32) :
    stoutbox.boxForPeer T ePriv peer key iv =
      strongbox.Seal T.sym iv key
        ((T.xcoord (T.scalarMult q ePriv)).take 32 ++
          hashBytes T.hByte 48 ((T.xcoord (T.scalarMult q ePriv)).drop 32)) := by
  unfold stoutbox.boxForPeer
  rw [stout_ecdh_marshal T ePriv q peer hq hx]

/-- Under the recipient-validity hypotheses the packing loop succeeds and
each `(peer, wrap)` pair contributes `4 + 133 + 4 + 144` bytes. -/
theorem packPeerEntries_isSome {Pt : Type} (T : ECSuite Pt)
    (ePriv K : List Nat) (wrapIv : Nat → List Nat) (Q : List Nat → Pt)
    (hK : K.length = 80) (hwIv : ∀ j, (wrapIv j).length = 16) :
    ∀ (ps : List (List Nat)) (i : Nat),
      (∀ p ∈ ps, T.unmarshal p = some (Q p)) →
      (∀ p ∈ ps, p.length = stoutbox.publicKeySize) →
      (∀ p ∈ ps, ¬ (T.xcoord (T.scalarMult (Q p) ePriv)).length < 32) →
      ∃ es, stoutbox.packPeerEntries T ePriv K wrapIv ps i = some es ∧
        es.length = 285 * ps.length
  | [], _, _, _, _ => ⟨[], rfl, rfl⟩
  | p :: ps, i, hq, hl, hx => by
    have hkp := stout_ecdh_key_suitable T (Q p) ePriv (hx p (by simp))
    obtain ⟨pbox, hpbox⟩ : ∃ pbox,
        stoutbox.boxForPeer T ePriv p K (wrapIv i) = some pbox := by
      rw [boxForPeer_eq T ePriv p K (wrapIv i) (Q p) (hq p (by simp)) (hx p (by simp))]
      unfold strongbox.Seal symSeal
      rw [if_pos hkp]
      exact ⟨_, rfl⟩
    obtain ⟨es, hes, heslen⟩ := packPeerEntries_isSome T ePriv K wrapIv Q hK hwIv ps
      (i + 1) (fun x hxm => hq x (by simp [hxm])) (fun x hxm => hl x (by simp [hxm]))
      (fun x hxm => hx x (by simp [hxm]))
    refine ⟨frame p ++ frame pbox ++ es, ?_, ?_⟩
    · unfold stoutbox.packPeerEntries
      rw [hpbox]
      dsimp only
      rw [hes]
    · have hpblen : pbox.length = 144 := by
        rw [boxForPeer_length T ePriv p K (wrapIv i) pbox hpbox (hwIv i), hK]
      simp only [List.length_append, frame, u32be, List.length_cons,
        List.length_nil, hl p (by simp), hpblen, heslen, stoutbox.publicKeySize]
      ring

end SharedLemmas

section ScanLemmas

theorem scanPeers_packed_mem {Pt : Type} (T : ECSuite Pt)
    (ePriv K key ePub pub : List Nat) (wrapIv : Nat → List Nat) (Q : List Nat → Pt)
    (hK : K.length = 80) (hKne : K ≠ []) (hwIv : ∀ j, (wrapIv j).length = 16)
    (hodh : stoutbox.ecdh T key ePub = stoutbox.ecdh T ePriv pub) :
    ∀ (ps : List (List Nat)) (i : Nat) (es : List Nat),
      stoutbox.packPeerEntries T ePriv K wrapIv ps i = some es →
      (∀ p ∈ ps, p.length = stoutbox.publicKeySize) →
      pub ∈ ps →
      stoutbox.scanPeers T key ePub pub ps.length ⟨es, false⟩ = some K
  | [], _, _, _, _, hmem => absurd hmem (by simp)
  | p :: ps, i, es, hpack, hl, hmem => by
    unfold stoutbox.packPeerEntries at hpack
    cases hbfp : stoutbox.boxForPeer T ePriv p K (wrapIv i) with
    | none => rw [hbfp] at hpack; exact absurd hpack (by simp)
    | some pbox =>
      rw [hbfp] at hpack
      dsimp only at hpack
      cases hrec : stoutbox.packPeerEntries T ePriv K wrapIv ps (i + 1) with
      | none => rw [hrec] at hpack; exact absurd hpack (by simp)
      | some restE =>
        rw [hrec] at hpack
        dsimp only at hpack
        cases hpack
        have hplen : p.length < 4294967296 := by
          rw [hl p (by simp)]; simp [stoutbox.publicKeySize]
        have hpblen : pbox.length < 4294967296 := by
          rw [boxForPeer_length T ePriv p K (wrapIv i) pbox hbfp (hwIv i), hK]
          simp
        simp only [List.length_cons]
        rw [List.append_assoc]
        unfold stoutbox.scanPeers
        rw [brNext_frame p (frame pbox ++ restE) hplen]
        dsimp only
        rw [brNext_frame pbox restE hpblen]
        dsimp only
        by_cases hpp : p = pub
        · rw [if_pos hpp]
          subst hpp
          unfold stoutbox.boxForPeer at hbfp
          cases hec : stoutbox.ecdh T ePriv p with
          | none => rw [hec] at hbfp; exact absurd hbfp (by simp)
          | some sk0 =>
            rw [hec] at hbfp
            dsimp only at hbfp
            rw [hodh, hec]
            dsimp only
            unfold strongbox.Seal at hbfp
            have hrt := symOpen_symSeal T.sym 32 48 (wrapIv i) K sk0
              (symSeal_some_suitable T.sym 32 48 (wrapIv i) K sk0 pbox hbfp)
              (hwIv i) hKne
            rw [hbfp, Option.getD_some] at hrt
            unfold strongbox.Open
            exact hrt
        · rw [if_neg hpp]
          exact scanPeers_packed_mem T ePriv K key ePub pub wrapIv Q hK hKne hwIv hodh
            ps (i + 1) restE hrec (fun x hxm => hl x (by simp [hxm]))
            (by rcases List.mem_cons.mp hmem with h | h
                · exact absurd h.symm hpp
                · exact h)

theorem scanPeers_packed_not_mem {Pt : Type} (T : ECSuite Pt)
    (ePriv K key ePub pub : List Nat) (wrapIv : Nat → List Nat)
    (hK : K.length = 80) (hwIv : ∀ j, (wrapIv j).length = 16) :
    ∀ (ps : List (List Nat)) (i : Nat) (es : List Nat),
      stoutbox.packPeerEntries T ePriv K wrapIv ps i = some es →
      (∀ p ∈ ps, p.length = stoutbox.publicKeySize) →
      pub ∉ ps →
      stoutbox.scanPeers T key ePub pub ps.length ⟨es, false⟩ = none
  | [], _, _, hpack, _, _ => by
    cases hpack
    rfl
  | p :: ps, i, es, hpack, hl, hmem => by
    unfold stoutbox.packPeerEntries at hpack
    cases hbfp : stoutbox.boxForPeer T ePriv p K (wrapIv i) with
    | none => rw [hbfp] at hpack; exact absurd hpack (by simp)
    | some pbox =>
      rw [hbfp] at hpack
      dsimp only at hpack
      cases hrec : stoutbox.packPeerEntries T ePriv K wrapIv ps (i + 1) with
      | none => rw [hrec] at hpack; exact absurd hpack (by simp)
      | some restE =>
        rw [hrec] at hpack
        dsimp only at hpack
        cases hpack
        have hplen : p.length < 4294967296 := by
          rw [hl p (by simp)]; simp [stoutbox.publicKeySize]
        have hpblen : pbox.length < 4294967296 := by
          rw [boxForPeer_length T ePriv p K (wrapIv i) pbox hbfp (hwIv i), hK]
          simp
        simp only [List.length_cons]
        rw [List.append_assoc]
        unfold stoutbox.scanPeers
        rw [brNext_frame p (frame pbox ++ restE) hplen]
        dsimp only
        rw [brNext_frame pbox restE hpblen]
        dsimp only
        rw [if_neg (fun hc => hmem (by simp [hc]))]
        exact scanPeers_packed_not_mem T ePriv K key ePub pub wrapIv hK hwIv
          ps (i + 1) restE hrec (fun x hxm => hl x (by simp [hxm]))
          (fun hc => hmem (by simp [hc]))

end ScanLemmas

section SharedRoundTrip

/-- Building and unpacking a shared box: the whole seal/parse pipeline,
with the recipient scan left symbolic. -/
theorem stout_shared_pipeline {Pt : Type} (T : ECSuite Pt)
    (ephPriv K payloadIv m : List Nat) (wrapIv : Nat → List Nat)
    (peers : List (List Nat)) (Q : List Nat → Pt)
    (hE1 : ephPriv.length = stoutbox.privateKeySize)
    (hE2 : (T.marshal (T.base ephPriv)).length = stoutbox.publicKeySize)
    (hQ : ∀ p ∈ peers, T.unmarshal p = some (Q p))
    (hL : ∀ p ∈ peers, p.length = stoutbox.publicKeySize)
    (hX : ∀ p ∈ peers, ¬ (T.xcoord (T.scalarMult (Q p) ephPriv)).length < 32)
    (hK : K.length = 80) (hwIv : ∀ j, (wrapIv j).length = 16)
    (hpIv : payloadIv.length = 16) (hm : m ≠ [])
    (hm32 : m.length + 64 < 4294967296)
    (hN : 9 + 285 * peers.length < 4294967296) :
    ∃ es SB,
      stoutbox.packPeerEntries T ephPriv K wrapIv peers 0 = some es ∧
      strongbox.Seal T.sym payloadIv m K = some SB ∧
      strongbox.Open T.sym SB K = some m ∧
      stoutbox.SealShared T ephPriv K wrapIv payloadIv m peers =
        some (stoutbox.BoxShared :: (frame (T.marshal (T.base ephPriv)) ++
          (frame (stoutbox.peerList :: (u32be 4 ++ (u32be peers.length ++ es))) ++
           frame SB))) ∧
      (∀ priv pub, stoutbox.KeyIsSuitable priv pub = true →
        stoutbox.unpackSharedBox T
          (stoutbox.BoxShared :: (frame (T.marshal (T.base ephPriv)) ++
            (frame (stoutbox.peerList :: (u32be 4 ++ (u32be peers.length ++ es))) ++
             frame SB))) priv pub =
          match stoutbox.scanPeers T priv (T.marshal (T.base ephPriv)) pub
              peers.length ⟨es, false⟩ with
          | none => none
          | some shared =>
            match strongbox.Open T.sym SB shared with
            | none => none
            | some message => some (stoutbox.BoxShared, message)) := by
  obtain ⟨es, hes, heslen⟩ := packPeerEntries_isSome T ephPriv K wrapIv Q hK hwIv
    peers 0 hQ hL hX
  have hsskey : symKeyIsSuitable (32 + 48) K = true := by
    simp [symKeyIsSuitable, hK]
  obtain ⟨SB, hSB⟩ : ∃ sb, strongbox.Seal T.sym payloadIv m K = some sb := by
    unfold strongbox.Seal symSeal
    rw [if_pos hsskey]
    exact ⟨_, rfl⟩
  have hSBlen : SB.length = m.length + 64 := by
    have hss : symSeal T.sym 32 48 payloadIv m K = some SB := hSB
    have := symSeal_length T.sym 32 48 payloadIv m K SB hss hpIv
    omega
  have hSBopen : strongbox.Open T.sym SB K = some m := by
    have hrt := symOpen_symSeal T.sym 32 48 payloadIv m K hsskey hpIv hm
    have hss : symSeal T.sym 32 48 payloadIv m K = some SB := hSB
    rw [hss, Option.getD_some] at hrt
    exact hrt
  have hall : peers.all (fun p => stoutbox.KeyIsSuitable [] p) = true := by
    rw [List.all_eq_true]
    intro p hp
    exact stout_KeyIsSuitable_pub p (hL p hp)
  have hseal : stoutbox.SealShared T ephPriv K wrapIv payloadIv m peers =
      some (stoutbox.BoxShared :: (frame (T.marshal (T.base ephPriv)) ++
        (frame (stoutbox.peerList :: (u32be 4 ++ (u32be peers.length ++ es))) ++
         frame SB))) := by
    unfold stoutbox.SealShared stoutbox.buildSharedBox
    rw [if_neg (fun hc => hm hc)]
    rw [if_neg (fun hc => hc hall)]
    rw [if_neg (fun hc => hc ⟨hE1, hE2⟩)]
    rw [hes]
    dsimp only
    rw [hSB]
    dsimp only
    simp [List.append_assoc]
  have hplistlen : (stoutbox.peerList ::
      (u32be 4 ++ (u32be peers.length ++ es))).length < 4294967296 := by
    simp only [List.length_cons, List.length_append, u32be, List.length_nil]
    omega
  have hNlt : peers.length < 4294967296 := by omega
  have hSBnext : stoutbox.brNext ⟨frame SB, false⟩ = (some SB, ⟨[], false⟩) := by
    have := brNext_frame SB [] (by omega)
    rwa [List.append_nil] at this
  refine ⟨es, SB, hes, hSB, hSBopen, hseal, ?_⟩
  intro priv pub hks
  unfold stoutbox.unpackSharedBox
  dsimp only
  rw [if_neg (fun hc => hc hks)]
  unfold stoutbox.unpackSharedBoxTail
  rw [brNext_frame (T.marshal (T.base ephPriv)) _ (by rw [hE2]; simp [stoutbox.publicKeySize])]
  dsimp only
  rw [brNext_frame (stoutbox.peerList :: (u32be 4 ++ (u32be peers.length ++ es)))
    (frame SB) hplistlen]
  dsimp only
  rw [if_neg (fun hc => hc rfl)]
  rw [brNextU32_frame peers.length es hNlt]
  dsimp only
  rw [hSBnext]

end SharedRoundTrip

section ToyModels

/-- Fixed-width big-endian encoding, used by the toy collaborator models
below (witness instances of the abstract interfaces). -/
def natToBE : Nat → Nat → List Nat
  | 0, _ => []
  | w + 1, n => natToBE w (n / 256) ++ [n % 256]

theorem natToBE_length (w n : Nat) : (natToBE w n).length = w := by
  induction w generalizing n with
  | zero => rfl
  | succ w ih => simp [natToBE, ih]

/-- A toy symmetric collaborator instance. -/
def toySym : SymPrims where
  ksByte := fun _ _ i => (i + 7) % 256
  hmByte := fun key msg i => (key.length + 3 * msg.length + i) % 256

/-- A toy 20-year curve model over `Nat`: a point is a natural number,
the scalar product is multiplication by the big-endian scalar value, so
the two orders of the ECDH agreement agree. -/
def toyBox : ECSuite Nat where
  unmarshal := fun l => if l.length = 65 ∧ l.headD 0 = 4 then some (beToNat (l.drop 1)) else none
  scalarMult := fun p k => p * beToNat k
  base := fun k => beToNat k
  marshal := fun p => 4 :: natToBE 64 p
  xcoord := fun p => natToBE 32 p
  hByte := fun msg i => (msg.length + i) % 256
  sym := toySym
  ecdsaVerify := fun _ _ _ _ => false

/-- The same toy 20-year model with the X-coordinate rendered one byte
shorter (a leading zero dropped), to exhibit padding invariance. -/
def toyBoxShort : ECSuite Nat :=
  { toyBox with xcoord := fun p => natToBE 31 p }

/-- A toy 50-year curve model over `Nat`. -/
def toyStout : ECSuite Nat where
  unmarshal := fun l => if l.length = 133 ∧ l.headD 0 = 4 then some (beToNat (l.drop 1)) else none
  scalarMult := fun p k => p * beToNat k
  base := fun k => beToNat k
  marshal := fun p => 4 :: natToBE 132 p
  xcoord := fun p => natToBE 66 p
  hByte := fun msg i => (msg.length + i) % 256
  sym := toySym
  ecdsaVerify := fun _ _ _ _ => false

/-- The toy 50-year model whose X-coordinate encoding carries one leading
zero fewer (an X below 2^520), exhibiting that the unpadded split of the
source depends on it. -/
def toyStoutShort : ECSuite Nat :=
  { toyStout with xcoord := fun p => natToBE 65 p }

def tIv : List Nat := List.replicate 16 5
def tMsg : List Nat := [72, 105]
def bPriv : List Nat := List.replicate 31 0 ++ [3]
def bEph : List Nat := List.replicate 31 0 ++ [2]
def bPub : List Nat := toyBox.marshal (toyBox.base bPriv)
def sPriv : List Nat := List.replicate 65 0 ++ [3]
def sEph : List Nat := List.replicate 65 0 ++ [2]
def sPub : List Nat := toyStout.marshal (toyStout.base sPriv)
def tKey48 : List Nat := List.replicate 48 1
def tKey80 : List Nat := List.replicate 80 1

/-- Minimal big-endian encoding (for values below 2^528), as
`big.Int.Bytes()`: the fixed-width encoding with its leading zero bytes
stripped, so zero encodes to the empty slice. -/
def natMinBE (n : Nat) : List Nat := (natToBE 66 n).dropWhile (fun b => b = 0)

/-- The toy 50-year model whose X-coordinate is rendered minimally, as
`x.Bytes()` really is: the point at infinity (reached for instance by an
all-zero private scalar) has an empty encoding. -/
def toyStoutMin : ECSuite Nat :=
  { toyStout with xcoord := natMinBE }

def zeroKey66 : List Nat := List.replicate 66 0

end ToyModels

section ClaimC2

/-- Claim C2, counterexample to the claim as stated: for the empty
message, `Seal` succeeds but `Open` rejects the resulting box (its length
equals `Overhead`, and `Open` requires strictly more), so the symmetric
round trip fails with `∀ m`. -/
theorem claim_C2_counterexample :
    (secretbox.Seal toySym tIv [] tKey48).isSome = true ∧
    secretbox.Open toySym ((secretbox.Seal toySym tIv [] tKey48).getD []) tKey48 =
      none := by
  constructor
  · decide
  · decide

/-- Claim C2 (amended to non-empty messages): for every key of exactly
`KeySize` bytes, every 16-byte IV the random source produces and every
non-empty message, the symmetric round trip succeeds, in both the
secretbox and the strongbox profile, and the IV is carried in the first
16 bytes of the box. -/
theorem claim_C2_amended (P R : SymPrims) (key1 key2 iv1 iv2 m1 m2 : List Nat)
    (hk1 : key1.length = secretbox.KeySize) (hiv1 : iv1.length = 16) (hm1 : m1 ≠ [])
    (hk2 : key2.length = strongbox.KeySize) (hiv2 : iv2.length = 16) (hm2 : m2 ≠ []) :
    (secretbox.Open P ((secretbox.Seal P iv1 m1 key1).getD []) key1 = some m1 ∧
      ((secretbox.Seal P iv1 m1 key1).getD []).take 16 = iv1) ∧
    (strongbox.Open R ((strongbox.Seal R iv2 m2 key2).getD []) key2 = some m2 ∧
      ((strongbox.Seal R iv2 m2 key2).getD []).take 16 = iv2) := by
  have hsk1 : symKeyIsSuitable (16 + 32) key1 = true := by
    simp [symKeyIsSuitable, hk1, secretbox.KeySize]
  have hsk2 : symKeyIsSuitable (32 + 48) key2 = true := by
    simp [symKeyIsSuitable, hk2, strongbox.KeySize]
  have hiv116 : iv1.take 16 = iv1 := by rw [← hiv1]; exact List.take_length iv1
  have hiv216 : iv2.take 16 = iv2 := by rw [← hiv2]; exact List.take_length iv2
  refine ⟨⟨symOpen_symSeal P 16 32 iv1 m1 key1 hsk1 hiv1 hm1, ?_⟩,
    ⟨symOpen_symSeal R 32 48 iv2 m2 key2 hsk2 hiv2 hm2, ?_⟩⟩
  · unfold secretbox.Seal symSeal
    rw [if_pos hsk1, Option.getD_some, hiv116, List.append_assoc]
    exact List.take_left' hiv1
  · unfold strongbox.Seal symSeal
    rw [if_pos hsk2, Option.getD_some, hiv216, List.append_assoc]
    exact List.take_left' hiv2

/-- Witness for `claim_C2_amended` at concrete keys, IVs and messages. -/
theorem claim_C2_witness :
    (secretbox.Open toySym ((secretbox.Seal toySym tIv tMsg tKey48).getD []) tKey48 =
        some tMsg ∧
      ((secretbox.Seal toySym tIv tMsg tKey48).getD []).take 16 = tIv) ∧
    (strongbox.Open toySym ((strongbox.Seal toySym tIv tMsg tKey80).getD []) tKey80 =
        some tMsg ∧
      ((strongbox.Seal toySym tIv tMsg tKey80).getD []).take 16 = tIv) :=
  claim_C2_amended toySym toySym tKey48 tKey80 tIv tIv tMsg tMsg
    (by decide) (by decide) (by decide) (by decide) (by decide) (by decide)

end ClaimC2

section ClaimC1

/-- Claim C1, counterexample to the claim as stated: sealing the empty
message under the 20-year profile succeeds, but opening the sealed box
with the matching private key fails (the inner secretbox is exactly
`Overhead` bytes), so `Open(Seal(m, pub), priv) == m` does not hold for
every message. -/
theorem claim_C1_counterexample :
    (box.Seal toyBox bEph tIv [] bPub).isSome = true ∧
    box.Open toyBox ((box.Seal toyBox bEph tIv [] bPub).getD []) bPriv = none := by
  constructor
  · decide
  · decide

/-- Claim C1 (amended to non-empty messages): for keypairs produced by
`GenerateKey` in either profile and every non-empty message, opening the
sealed single-recipient box with the matching private key returns the
message: `box.Open(box.Seal(m, pub), priv) = m` and
`stoutbox.Open(stoutbox.Seal(m, pub), priv) = m`. -/
theorem claim_C1_amended {Pt Qt : Type} (S : ECSuite Pt) (T : ECSuite Qt)
    (privB ephPriv iv privB2 ephPriv2 iv2 m : List Nat)
    (h1 : privB.length = box.privateKeySize)
    (h2 : ephPriv.length = box.privateKeySize)
    (h3 : (S.marshal (S.base privB)).length = box.publicKeySize)
    (h4 : (S.marshal (S.base ephPriv)).length = box.publicKeySize)
    (h5 : S.unmarshal (S.marshal (S.base privB)) = some (S.base privB))
    (h6 : S.unmarshal (S.marshal (S.base ephPriv)) = some (S.base ephPriv))
    (h7 : S.scalarMult (S.base privB) ephPriv = S.scalarMult (S.base ephPriv) privB)
    (hiv : iv.length = 16)
    (k1 : privB2.length = stoutbox.privateKeySize)
    (k2 : ephPriv2.length = stoutbox.privateKeySize)
    (k3 : (T.marshal (T.base privB2)).length = stoutbox.publicKeySize)
    (k4 : (T.marshal (T.base ephPriv2)).length = stoutbox.publicKeySize)
    (k5 : T.unmarshal (T.marshal (T.base privB2)) = some (T.base privB2))
    (k6 : T.unmarshal (T.marshal (T.base ephPriv2)) = some (T.base ephPriv2))
    (k7 : T.scalarMult (T.base privB2) ephPriv2 = T.scalarMult (T.base ephPriv2) privB2)
    (kx : ¬ (T.xcoord (T.scalarMult (T.base privB2) ephPriv2)).length < 32)
    (kiv : iv2.length = 16)
    (hm : m ≠ []) (hm32 : m.length + 64 < 4294967296) :
    box.Open S ((box.Seal S ephPriv iv m (S.marshal (S.base privB))).getD []) privB =
      some m ∧
    stoutbox.Open T
      ((stoutbox.Seal T ephPriv2 iv2 m (T.marshal (T.base privB2))).getD []) privB2 =
      some m :=
  ⟨box_open_seal S privB ephPriv iv m h1 h2 h3 h4 h5 h6 h7 hiv hm,
   stout_open_seal T privB2 ephPriv2 iv2 m k1 k2 k3 k4 k5 k6 k7 kx kiv hm hm32⟩

/-- Witness for `claim_C1_amended` at concrete keypairs, IVs and message. -/
theorem claim_C1_witness :
    box.Open toyBox ((box.Seal toyBox bEph tIv tMsg bPub).getD []) bPriv =
      some tMsg ∧
    stoutbox.Open toyStout ((stoutbox.Seal toyStout sEph tIv tMsg sPub).getD [])
      sPriv = some tMsg :=
  claim_C1_amended toyBox toyStout bPriv bEph tIv sPriv sEph tIv tMsg
    (by decide) (by decide) (by decide) (by decide) (by decide) (by decide)
    (by decide) (by decide) (by decide) (by decide) (by decide) (by decide)
    (by decide) (by decide) (by decide) (by decide) (by decide) (by decide)
    (by decide)

end ClaimC1

section ClaimC7

/-- Claim C7: a successful single-recipient `Seal` output is exactly
`|m| + Overhead` bytes long in both profiles, with
`Overhead = 65 + 48 = 113` for the 20-year box and
`Overhead = 133 + 64 + 9 = 206` for the 50-year stoutbox. -/
theorem claim_C7 {Pt Qt : Type} (S : ECSuite Pt) (T : ECSuite Qt)
    (ephPriv iv m peer b1 ephPriv2 iv2 m2 peer2 b2 : List Nat)
    (hiv : iv.length = 16) (hiv2 : iv2.length = 16)
    (h1 : box.Seal S ephPriv iv m peer = some b1)
    (h2 : stoutbox.Seal T ephPriv2 iv2 m2 peer2 = some b2) :
    (b1.length = m.length + box.Overhead ∧ box.Overhead = 65 + 48) ∧
    (b2.length = m2.length + stoutbox.Overhead ∧ stoutbox.Overhead = 133 + 64 + 9) := by
  refine ⟨⟨?_, rfl⟩, ⟨?_, rfl⟩⟩
  · unfold box.Seal at h1
    split at h1
    · split at h1
      · rename_i hgen
        cases hec : box.ecdh S ephPriv peer with
        | none => rw [hec] at h1; exact absurd h1 (by simp)
        | some sk =>
          rw [hec] at h1
          dsimp only at h1
          cases hsb : secretbox.Seal S.sym iv m sk with
          | none => rw [hsb] at h1; exact absurd h1 (by simp)
          | some sbx =>
            rw [hsb] at h1
            dsimp only at h1
            cases h1
            have hsblen : sbx.length = 16 + m.length + 32 :=
              symSeal_length S.sym 16 32 iv m sk sbx hsb hiv
            simp only [List.length_append, hsblen, hgen.2, box.Overhead,
              box.publicKeySize, secretbox.Overhead]
            omega
      · exact absurd h1 (by simp)
    · exact absurd h1 (by simp)
  · unfold stoutbox.Seal stoutbox.sealBox at h2
    split at h2
    · exact absurd h2 (by simp)
    · split at h2
      · exact absurd h2 (by simp)
      · split at h2
        · exact absurd h2 (by simp)
        · rename_i hgen2
          cases hec : stoutbox.ecdh T ephPriv2 peer2 with
          | none => rw [hec] at h2; exact absurd h2 (by simp)
          | some sk =>
            rw [hec] at h2
            dsimp only at h2
            cases hsb : strongbox.Seal T.sym iv2 m2 sk with
            | none => rw [hsb] at h2; exact absurd h2 (by simp)
            | some sbx =>
              rw [hsb] at h2
              dsimp only at h2
              cases h2
              have hsblen : sbx.length = 16 + m2.length + 48 :=
                symSeal_length T.sym 32 48 iv2 m2 sk sbx hsb hiv2
              have hgl : (T.marshal (T.base ephPriv2)).length =
                  stoutbox.publicKeySize := by
                rcases Decidable.not_not.mp hgen2 with ⟨_, h⟩
                exact h
              simp only [List.length_append, List.length_cons, frame, u32be,
                List.length_nil, hgl, hsblen, stoutbox.Overhead,
                stoutbox.publicKeySize, strongbox.Overhead]
              omega

/-- Witness for `claim_C7` at concrete inputs. -/
theorem claim_C7_witness :
    (((box.Seal toyBox bEph tIv tMsg bPub).getD []).length =
        tMsg.length + box.Overhead ∧ box.Overhead = 65 + 48) ∧
    (((stoutbox.Seal toyStout sEph tIv tMsg sPub).getD []).length =
        tMsg.length + stoutbox.Overhead ∧ stoutbox.Overhead = 133 + 64 + 9) :=
  claim_C7 toyBox toyStout bEph tIv tMsg bPub
    ((box.Seal toyBox bEph tIv tMsg bPub).getD []) sEph tIv tMsg sPub
    ((stoutbox.Seal toyStout sEph tIv tMsg sPub).getD [])
    (by decide) (by decide) (by decide) (by decide)

end ClaimC7

section ClaimC8

def c8Box : List Nat :=
  5 :: (frame (toyStoutMin.marshal (toyStoutMin.base sEph)) ++ frame [1, 2, 3])

/-- Claim C8, counterexample to the claim as stated: on a box whose
leading type byte is 5 (neither `BoxUnsigned` nor `BoxSigned`) and an
all-zero 66-byte recipient key (which `KeyIsSuitable` accepts), the
shared point is the point at infinity, `x.Bytes()` is empty, and the
`xb[:32]` slice in `ecdh` panics before the type-byte check: `Open` and
`OpenAndVerify` do not return failure there. -/
theorem claim_C8_counterexample :
    (5 : Nat) ≠ stoutbox.BoxUnsigned ∧ (5 : Nat) ≠ stoutbox.BoxSigned ∧
    stoutbox.KeyIsSuitable zeroKey66 [] = true ∧
    stoutbox.OpenP toyStoutMin c8Box zeroKey66 = none ∧
    stoutbox.OpenAndVerifyP toyStoutMin c8Box zeroKey66 sPub = none := by
  refine ⟨?_, ?_, ?_, ?_, ?_⟩ <;> decide

theorem stoutbox_openBoxP_fst {Pt : Type} (T : ECSuite Pt) (b : Nat)
    (rest key : List Nat) (r : Nat × List Nat)
    (h : stoutbox.openBoxP T (b :: rest) key = some (some r)) : r.1 = b := by
  unfold stoutbox.openBoxP at h
  dsimp only at h
  split at h
  · exact absurd h (by simp)
  · unfold stoutbox.openBoxTailP at h
    dsimp only at h
    split at h
    · exact absurd h (by simp)
    · split at h
      · exact absurd h (by simp)
      · exact absurd h (by simp)
      · split at h
        · exact absurd h (by simp)
        · split at h
          · exact absurd h (by simp)
          · cases h
            rfl

/-- Claim C8 (amended): on every execution that returns at all,
`stoutbox.Open` fails for every box whose leading type byte is not
`BoxUnsigned`, and `stoutbox.OpenAndVerify` fails for every box whose
leading type byte is not `BoxSigned`, whatever the rest of the box and
the keys are; on keys and ephemeral points whose ECDH shared
X-coordinate encodes to fewer than 32 bytes the call panics in `ecdh`
before the type-byte check instead of returning. -/
theorem claim_C8_amended {Pt : Type} (T : ECSuite Pt) (b c : Nat)
    (rest rest2 key key2 peer : List Nat)
    (hb : b ≠ stoutbox.BoxUnsigned) (hc : c ≠ stoutbox.BoxSigned) :
    (stoutbox.OpenP T (b :: rest) key).getD none = none ∧
    (stoutbox.OpenAndVerifyP T (c :: rest2) key2 peer).getD none = none := by
  constructor
  · unfold stoutbox.OpenP
    cases h : stoutbox.openBoxP T (b :: rest) key with
    | none => rfl
    | some ro =>
      cases ro with
      | none => rfl
      | some r =>
        dsimp only
        rw [if_neg (by rw [stoutbox_openBoxP_fst T b rest key r h]; exact hb)]
        rfl
  · unfold stoutbox.OpenAndVerifyP
    cases h : stoutbox.openBoxP T (c :: rest2) key2 with
    | none => rfl
    | some ro =>
      cases ro with
      | none => rfl
      | some r =>
        dsimp only
        rw [if_pos (by rw [stoutbox_openBoxP_fst T c rest2 key2 r h]; exact hc)]
        rfl

/-- Witness for `claim_C8_amended` at a concrete type byte and keys. -/
theorem claim_C8_witness :
    (stoutbox.OpenP toyStout (5 :: []) sPriv).getD none = none ∧
    (stoutbox.OpenAndVerifyP toyStout (5 :: []) sPriv sPub).getD none = none :=
  claim_C8_amended toyStout 5 5 [] [] sPriv sPriv sPub (by decide) (by decide)

end ClaimC8

section ClaimC10

/-- Claim C10: the stoutbox openers and `BoxIsSigned`, applied to a
non-nil empty box with otherwise valid keys, do not return failure: they
evaluate `box[0]` on an empty slice, a Go run-time panic (the outer
`none` of the `...Go` models). -/
theorem claim_C10 :
    stoutbox.OpenGo toyStout (some []) (some sPriv) = none ∧
    stoutbox.OpenAndVerifyGo toyStout (some []) (some sPriv) sPub = none ∧
    stoutbox.OpenSharedGo toyStout (some []) (some sPriv) (some sPub) = none ∧
    stoutbox.OpenSharedAndVerifyGo toyStout (some []) (some sPriv) (some sPub)
      sPub = none ∧
    stoutbox.BoxIsSignedGo (some []) = none := by
  refine ⟨?_, ?_, ?_, ?_, ?_⟩ <;> decide

end ClaimC10

section ClaimC9

def c9Msg : List Nat := [42]

/-- Claim C9: a box sealed from a message shorter than `sigSize = 64`
bytes opens fine with `box.Open`, but `box.OpenAndVerify` on it evaluates
`smessage[:len(smessage)-64]` with a negative bound: a Go run-time panic
(the `none` of the panic-aware model), not a failure return. -/
theorem claim_C9 :
    box.Open toyBox ((box.Seal toyBox bEph tIv c9Msg bPub).getD []) bPriv =
      some c9Msg ∧
    c9Msg.length < box.sigSize ∧
    box.OpenAndVerify toyBox ((box.Seal toyBox bEph tIv c9Msg bPub).getD [])
      bPriv bPub = none := by
  refine ⟨?_, ?_, ?_⟩ <;> decide

end ClaimC9

section ClaimC4

def c4Inner : List Nat := [77]

def c4Msg : List Nat := c4Inner ++ List.replicate 64 9

/-- Claim C4: on a box whose signature verification fails,
`box.OpenAndVerify` returns the recovered plaintext next to `ok = false`
instead of an empty buffer: the claim's "no partial plaintext on
failure" is violated by the 20-year profile. -/
theorem claim_C4 :
    box.OpenAndVerify toyBox ((box.Seal toyBox bEph tIv c4Msg bPub).getD [])
      bPriv bPub = some (c4Inner, false) ∧
    c4Inner ≠ [] := by
  constructor
  · decide
  · decide

end ClaimC4

section ClaimC3

def c3Priv : List Nat := List.replicate 32 0 ++ [7] ++ List.replicate 33 0

def c3Eph : List Nat := List.replicate 65 0 ++ [1]

def c3Pub : List Nat := toyStoutShort.marshal (toyStoutShort.base c3Eph)

/-- Claim C3: the 20-year `ecdh` really is invariant under a leading zero
byte of the X-coordinate (it zero-pads to 32 bytes), but the 50-year
`ecdh` uses `x.Bytes()` without padding, so for an X-coordinate whose
big-endian encoding has 65 bytes the derived key differs from the
spec-mandated padded derivation (spec §9 Q1 calls this a latent bug). -/
theorem claim_C3 :
    box.ecdh toyBox bPriv (toyBox.marshal 2) =
      box.ecdh toyBoxShort bPriv (toyBoxShort.marshal 2) ∧
    stoutbox.ecdh toyStoutShort c3Priv c3Pub ≠
      stoutbox.ecdhSpecPadded toyStoutShort c3Priv c3Pub := by
  constructor
  · decide
  · decide

end ClaimC3

section ClaimC6

/-- Claim C6, counterexample to the claim as stated: the box package's
frame reader does not fail when the length field exceeds the remaining
bytes; on the stream `[0,0,0,5,1]` (length 5, one byte remaining) it
returns a five byte buffer zero-filled past the stream instead of nil. -/
theorem claim_C6_counterexample :
    (box.brNext ⟨[0, 0, 0, 5, 1], false⟩).1 = some [1, 0, 0, 0, 0] ∧
    ¬ (box.brNext ⟨[0, 0, 0, 5, 1], false⟩).1 = none := by
  constructor
  · decide
  · decide

/-- Claim C6 (amended): the stoutbox frame reader fails (returns nil)
whenever the u32 length exceeds the remaining bytes and otherwise returns
exactly that many following bytes; the box package's frame reader
performs no such check and returns a buffer of the requested length,
zero-filled beyond the available bytes. -/
theorem claim_C6_amended (n : Nat) (rest : List Nat) (hn : n < 4294967296) :
    (rest.length < n → (stoutbox.brNext ⟨u32be n ++ rest, false⟩).1 = none) ∧
    (¬ rest.length < n →
      stoutbox.brNext ⟨u32be n ++ rest, false⟩ =
        (some (rest.take n), ⟨rest.drop n, false⟩)) ∧
    (box.brNext ⟨u32be n ++ rest, false⟩).1 =
      some (rest.take n ++ List.replicate (n - rest.length) 0) := by
  refine ⟨?_, ?_, ?_⟩
  · intro h
    unfold stoutbox.brNext
    rw [u32be_cons]
    simp only [Bool.false_eq_true, if_false]
    rw [be32_u32be n hn, if_pos h]
  · intro h
    unfold stoutbox.brNext
    rw [u32be_cons]
    simp only [Bool.false_eq_true, if_false]
    rw [be32_u32be n hn, if_neg h]
  · unfold box.brNext
    rw [u32be_cons]
    simp only [Bool.false_eq_true, if_false]
    rw [be32_u32be n hn]

/-- Witness for `claim_C6_amended` at a concrete length and stream. -/
theorem claim_C6_witness :
    (([(9 : Nat), 8, 7] : List Nat).length < 2 →
      (stoutbox.brNext ⟨u32be 2 ++ [9, 8, 7], false⟩).1 = none) ∧
    (¬ ([(9 : Nat), 8, 7] : List Nat).length < 2 →
      stoutbox.brNext ⟨u32be 2 ++ [9, 8, 7], false⟩ =
        (some (([9, 8, 7] : List Nat).take 2), ⟨([9, 8, 7] : List Nat).drop 2, false⟩)) ∧
    (box.brNext ⟨u32be 2 ++ [9, 8, 7], false⟩).1 =
      some (([9, 8, 7] : List Nat).take 2 ++
        List.replicate (2 - ([(9 : Nat), 8, 7] : List Nat).length) 0) :=
  claim_C6_amended 2 [9, 8, 7] (by decide)

end ClaimC6

section ClaimC5

/-- Claim C5, counterexample to the claim as stated: for the empty (Go
nil) message there is no successful shared round trip; `SealShared`
already fails, so `OpenShared(SealShared(m, ...), priv, pub)` cannot
return `m` for every message. -/
theorem claim_C5_counterexample :
    stoutbox.SealShared toyStout sEph tKey80 (fun _ => tIv) tIv [] [sPub] = none ∧
    stoutbox.OpenShared toyStout
      ((stoutbox.SealShared toyStout sEph tKey80 (fun _ => tIv) tIv [] [sPub]).getD [])
      sPriv sPub = none := by
  constructor
  · decide
  · decide

/-- Claim C5 (amended to non-empty messages): for every non-empty message,
list of valid recipient public keys and keypair whose public key is in
the list, `OpenShared(SealShared(m, peers), priv, pub) = m`; and for every
valid keypair whose public key is not in the list, `OpenShared` on that
box fails. -/
theorem claim_C5_amended {Pt : Type} (T : ECSuite Pt)
    (ephPriv K payloadIv m : List Nat) (wrapIv : Nat → List Nat)
    (peers : List (List Nat)) (Q : List Nat → Pt)
    (priv pub priv2 pub2 : List Nat)
    (hE1 : ephPriv.length = stoutbox.privateKeySize)
    (hE2 : (T.marshal (T.base ephPriv)).length = stoutbox.publicKeySize)
    (hE3 : T.unmarshal (T.marshal (T.base ephPriv)) = some (T.base ephPriv))
    (hQ : ∀ p ∈ peers, T.unmarshal p = some (Q p))
    (hL : ∀ p ∈ peers, p.length = stoutbox.publicKeySize)
    (hX : ∀ p ∈ peers, ¬ (T.xcoord (T.scalarMult (Q p) ephPriv)).length < 32)
    (hK : K.length = 80) (hwIv : ∀ j, (wrapIv j).length = 16)
    (hpIv : payloadIv.length = 16) (hm : m ≠ [])
    (hm32 : m.length + 64 < 4294967296)
    (hN : 9 + 285 * peers.length < 4294967296)
    (hP1 : priv.length = stoutbox.privateKeySize)
    (hP3 : T.unmarshal pub = some (T.base priv))
    (hP4 : T.scalarMult (T.base priv) ephPriv = T.scalarMult (T.base ephPriv) priv)
    (hmem : pub ∈ peers)
    (hR1 : priv2.length = stoutbox.privateKeySize)
    (hR2 : pub2.length = stoutbox.publicKeySize)
    (hnmem : pub2 ∉ peers) :
    stoutbox.OpenShared T
      ((stoutbox.SealShared T ephPriv K wrapIv payloadIv m peers).getD [])
      priv pub = some m ∧
    stoutbox.OpenShared T
      ((stoutbox.SealShared T ephPriv K wrapIv payloadIv m peers).getD [])
      priv2 pub2 = none := by
  obtain ⟨es, SB, hes, hSB, hSBopen, hseal, hparse⟩ :=
    stout_shared_pipeline T ephPriv K payloadIv m wrapIv peers Q
      hE1 hE2 hQ hL hX hK hwIv hpIv hm hm32 hN
  have hKne : K ≠ [] := by
    intro hc; rw [hc] at hK; simp at hK
  rw [hseal, Option.getD_some]
  constructor
  · have hkis : stoutbox.KeyIsSuitable priv pub = true :=
      stout_KeyIsSuitable_both priv pub hP1 (hL pub hmem)
    have hQpub : Q pub = T.base priv := by
      have hq := hQ pub hmem
      rw [hP3] at hq
      exact (Option.some.inj hq).symm
    have hxpub : ¬ (T.xcoord (T.scalarMult (T.base priv) ephPriv)).length < 32 := by
      have hx := hX pub hmem
      rwa [hQpub] at hx
    have hodh : stoutbox.ecdh T priv (T.marshal (T.base ephPriv)) =
        stoutbox.ecdh T ephPriv pub := by
      rw [stout_ecdh_marshal T priv (T.base ephPriv) (T.marshal (T.base ephPriv))
          hE3 (by rw [← hP4]; exact hxpub),
        stout_ecdh_marshal T ephPriv (T.base priv) pub hP3 hxpub, hP4]
    unfold stoutbox.OpenShared
    rw [hparse priv pub hkis]
    rw [scanPeers_packed_mem T ephPriv K priv (T.marshal (T.base ephPriv)) pub
      wrapIv Q hK hKne hwIv hodh peers 0 es hes hL hmem]
    dsimp only
    rw [hSBopen]
    dsimp only
    rw [if_pos rfl]
  · have hkis2 : stoutbox.KeyIsSuitable priv2 pub2 = true :=
      stout_KeyIsSuitable_both priv2 pub2 hR1 hR2
    unfold stoutbox.OpenShared
    rw [hparse priv2 pub2 hkis2]
    rw [scanPeers_packed_not_mem T ephPriv K priv2 (T.marshal (T.base ephPriv))
      pub2 wrapIv hK hwIv peers 0 es hes hL hnmem]

def w2Priv : List Nat := List.replicate 65 0 ++ [5]

def w2Pub : List Nat := toyStout.marshal (toyStout.base w2Priv)

def nPriv : List Nat := List.replicate 65 0 ++ [9]

def nPub : List Nat := toyStout.marshal (toyStout.base nPriv)

/-- Witness for `claim_C5_amended`: two concrete recipients, the second
one opens the box, an unrelated keypair fails. -/
theorem claim_C5_witness :
    stoutbox.OpenShared toyStout
      ((stoutbox.SealShared toyStout sEph tKey80 (fun _ => tIv) tIv tMsg
        [sPub, w2Pub]).getD []) w2Priv w2Pub = some tMsg ∧
    stoutbox.OpenShared toyStout
      ((stoutbox.SealShared toyStout sEph tKey80 (fun _ => tIv) tIv tMsg
        [sPub, w2Pub]).getD []) nPriv nPub = none :=
  claim_C5_amended toyStout sEph tKey80 tIv tMsg (fun _ => tIv) [sPub, w2Pub]
    (fun l => beToNat (l.drop 1)) w2Priv w2Pub nPriv nPub
    (by decide) (by decide) (by decide) (by decide) (by decide) (by decide)
    (by decide) (fun _ => (by decide : tIv.length = 16)) (by decide) (by decide) (by decide)
    (by decide) (by decide) (by decide) (by decide) (by decide) (by decide)
    (by decide) (by decide)

end ClaimC5
